import Mathlib

/-!
Shallow embedding of `bson/objectid.py` (the `ObjectId` class and its module
helpers).  Bytes are modelled as `List Nat` with each element `< 256`; Python
`struct` packing is modelled by explicit base-256 encodings, returning `Option`
where `struct.pack` can raise on out-of-range input.  `PY3` is taken as true,
so `string_type`/`text_type` are `str` (modelled as `List Char`) and `bytes`
is `List Nat`.
-/

namespace Bson

/-- Big-endian base-256 encoding of `n` on `w` bytes (the bytes of
`struct.pack` for an in-range value). -/
def packBe : Nat → Nat → List Nat
  | 0, _ => []
  | w + 1, n => (n / 256 ^ w % 256) :: packBe w (n % 256 ^ w)

/-- Little-endian base-256 encoding of `n` on `w` bytes (`struct.pack("<I")`). -/
def packLe : Nat → Nat → List Nat
  | 0, _ => []
  | w + 1, n => (n % 256) :: packLe w (n / 256)

/-- `struct.pack(">i", t)`: big-endian two's-complement on 4 bytes; raises
(`none`) when `t` is outside the signed 32-bit range. -/
def packBeI32 (t : Int) : Option (List Nat) :=
  if -(2 ^ 31) ≤ t ∧ t < 2 ^ 31 then some (packBe 4 ((t % 2 ^ 32).toNat)) else none

/-- `struct.pack(">H", n)`: big-endian unsigned on 2 bytes; raises (`none`)
when `n` is outside the unsigned 16-bit range. -/
def packBeU16 (n : Nat) : Option (List Nat) :=
  if n < 2 ^ 16 then some (packBe 2 n) else none

/-- Big-endian read of a byte list as a natural number. -/
def beNat (bs : List Nat) : Nat :=
  bs.foldl (fun acc b => acc * 256 + b) 0

/-- `struct.unpack(">i", bs[0:4])[0]`: the first four bytes as a signed
big-endian 32-bit integer. -/
def unpackBeI32 (bs : List Nat) : Int :=
  let n := beNat (bs.take 4)
  if n < 2 ^ 31 then (n : Int) else (n : Int) - 2 ^ 32

/-- Python `bytes` lexicographic strict comparison (`<`). -/
def lexLt : List Nat → List Nat → Bool
  | [], [] => false
  | [], _ :: _ => true
  | _ :: _, [] => false
  | a :: as_, b :: bs => if a < b then true else if a = b then lexLt as_ bs else false

/-- Python `bytes` lexicographic comparison (`<=`). -/
def lexLe : List Nat → List Nat → Bool
  | [], _ => true
  | _ :: _, [] => false
  | a :: as_, b :: bs => if a < b then true else if a = b then lexLe as_ bs else false

/-- `_fnv_1a_24.fnv_1a_hash` after consuming `data`: 32-bit FNV-1a
(offset basis 2166136261, prime 16777619, each step reduced mod 2^32). -/
def fnv1a32 (data : List Nat) : Nat :=
  data.foldl (fun h b => ((h ^^^ b) * 16777619) % 2 ^ 32) 2166136261

/-- `_fnv_1a_24(data)`: 32-bit FNV-1a XOR-folded to 24 bits. -/
def fnv_1a_24 (data : List Nat) : Nat :=
  (fnv1a32 data >>> 24) ^^^ (fnv1a32 data &&& 0xFFFFFF)

/-- `_machine_bytes()`: `struct.pack("<I", _fnv_1a_24(hostname))[:3]`. -/
def machineBytesOf (hostname : List Nat) : List Nat :=
  (packLe 4 (fnv_1a_24 hostname)).take 3

/-- `ObjectId.__generate`, with the ambient state passed explicitly:
`t` is `int(time.time())`, `hostname` the bytes of `socket.gethostname()`
(cached as `ObjectId._machine_bytes`), `pid` is `os.getpid()`, and `inc` is
the current `ObjectId._inc`.  Returns the 12 identifier bytes together with
the updated `ObjectId._inc`; `none` models a `struct.error`. -/
def generate (t : Int) (hostname : List Nat) (pid : Nat) (inc : Nat) :
    Option (List Nat × Nat) := do
  let tsB ← packBeI32 t
  let pidB ← packBeU16 (pid % 0xFFFF)
  let incB ← packBeI32 (inc : Int)
  some (tsB ++ machineBytesOf hostname ++ pidB ++ incB.drop 1, (inc + 1) % 0xFFFFFF)

/-- Lowercase hex digit for `n < 16` (as produced by `binascii.hexlify`). -/
def toHexChar (n : Nat) : Char :=
  Char.ofNat (if n < 10 then 48 + n else 87 + n)

/-- The two lowercase hex digits of one byte. -/
def byteToHex (b : Nat) : List Char :=
  [toHexChar (b / 16), toHexChar (b % 16)]

/-- `ObjectId.__str__`: `binascii.hexlify(self.__id).decode()`. -/
def toHex (oid : List Nat) : List Char :=
  oid.flatMap byteToHex

/-- Value of a hex digit character, case-insensitive; `none` on a non-hex
character. -/
def hexDigitVal (c : Char) : Option Nat :=
  if 48 ≤ c.toNat ∧ c.toNat ≤ 57 then some (c.toNat - 48)
  else if 97 ≤ c.toNat ∧ c.toNat ≤ 102 then some (c.toNat - 87)
  else if 65 ≤ c.toNat ∧ c.toNat ≤ 70 then some (c.toNat - 55)
  else none

/-- Modelled from the spec: `bytes_from_hex` comes from `bson.py3compat`,
which is not among the sources.  Per the spec's text form, it decodes a hex
string at exactly two hex digits per byte, case-insensitive on input, and
fails when the content is not valid hexadecimal. -/
def bytesFromHex : List Char → Option (List Nat)
  | [] => some []
  | [_] => none
  | c1 :: c2 :: rest =>
    match hexDigitVal c1, hexDigitVal c2, bytesFromHex rest with
    | some h, some l, some bs => some ((16 * h + l) :: bs)
    | _, _, _ => none

/-- The Python exception kinds that `ObjectId` construction can raise and
that `is_valid` catches. -/
inductive PyErr where
  | invalidId : PyErr
  | typeError : PyErr
deriving DecidableEq

/-- A Python value handed to `ObjectId.__init__` / `ObjectId.is_valid` or
compared against an `ObjectId` (other than `None`, which is modelled by
`Option.none` at the use sites): a `str`, a `bytes`, an `int`, or an
existing `ObjectId` instance carrying its 12 raw bytes. -/
inductive PyValue where
  | str : List Char → PyValue
  | bytes : List Nat → PyValue
  | int : Int → PyValue
  | oid : List Nat → PyValue
deriving DecidableEq

/-- Python truthiness of a `PyValue` (`not oid` in `is_valid`): empty
strings and empty bytes are falsy, `0` is falsy, `ObjectId` instances are
always truthy. -/
def isTruthy : PyValue → Bool
  | .str s => !s.isEmpty
  | .bytes b => !b.isEmpty
  | .int n => n != 0
  | .oid _ => true

/-- `ObjectId.__init__` for a non-`None` argument (the `oid is None` branch
instead runs `generate`): 12 raw bytes are stored verbatim; otherwise
`ObjectId.__validate` runs — an `ObjectId` is copied via `binary`, a
24-character `str` is hex-decoded (`InvalidId` on failure or wrong length),
and any other value raises `TypeError`. -/
def construct : PyValue → Except PyErr (List Nat)
  | .bytes b =>
    if b.length = 12 then .ok b
    else .error .typeError
  | .oid b => .ok b
  | .str s =>
    if s.length = 24 then
      match bytesFromHex s with
      | some b => .ok b
      | none => .error .invalidId
    else .error .invalidId
  | .int _ => .error .typeError

/-- `ObjectId.is_valid(oid)`: falsy input (including `None`) is immediately
`false`; otherwise construction is attempted, catching exactly `InvalidId`
and `TypeError`. -/
def is_valid : Option PyValue → Bool
  | none => false
  | some v =>
    if !isTruthy v then false
    else
      match construct v with
      | .ok _ => true
      | .error .invalidId => false
      | .error .typeError => false

/-- A Python `datetime`: `secs` is `calendar.timegm(d.timetuple())` (the
wall-clock whole seconds since the epoch), `micro` its microsecond field
(dropped by `timetuple`), and `utcoffset` the result of `d.utcoffset()` in
seconds (`none` for a naive datetime). -/
structure PyDatetime where
  secs : Int
  micro : Nat
  utcoffset : Option Int
deriving DecidableEq

/-- The UTC Unix whole seconds of a datetime: naive values are read as UTC,
aware values have their offset subtracted first (as `from_datetime` does
before calling `timegm`). -/
def utcSecs (g : PyDatetime) : Int :=
  match g.utcoffset with
  | some off => g.secs - off
  | none => g.secs

/-- `ObjectId.from_datetime`: subtract the UTC offset when present, take
`timegm` of the time tuple (whole seconds), pack as `">i"` and append eight
zero bytes; the result is accepted verbatim by `__init__` as 12 bytes.
`none` models the `struct.error` on an out-of-range timestamp. -/
def from_datetime (g : PyDatetime) : Option (List Nat) :=
  (packBeI32 (utcSecs g)).map fun tsB => tsB ++ List.replicate 8 0

/-- `ObjectId.generation_time`: unpack the first 4 bytes as `">i"` and build
`datetime.fromtimestamp(timestamp, utc)` — a UTC-aware datetime, precise to
the second. -/
def generation_time (oid : List Nat) : PyDatetime :=
  ⟨unpackBeI32 oid, 0, some 0⟩

/-- Result of a Python rich-comparison method: a boolean, or the
`NotImplemented` sentinel. -/
inductive CmpResult where
  | bool : Bool → CmpResult
  | notImplemented : CmpResult
deriving DecidableEq

/-- Whether a comparison operand is an `ObjectId` instance
(`None` is not). -/
def isOidVal : Option PyValue → Bool
  | some (.oid _) => true
  | _ => false

/-- `ObjectId.__eq__`. -/
def objEq (selfId : List Nat) : Option PyValue → CmpResult
  | some (.oid b) => .bool (selfId = b)
  | _ => .notImplemented

/-- `ObjectId.__ne__`. -/
def objNe (selfId : List Nat) : Option PyValue → CmpResult
  | some (.oid b) => .bool (selfId ≠ b)
  | _ => .notImplemented

/-- `ObjectId.__lt__`. -/
def objLt (selfId : List Nat) : Option PyValue → CmpResult
  | some (.oid b) => .bool (lexLt selfId b)
  | _ => .notImplemented

/-- `ObjectId.__le__`. -/
def objLe (selfId : List Nat) : Option PyValue → CmpResult
  | some (.oid b) => .bool (lexLe selfId b)
  | _ => .notImplemented

/-- `ObjectId.__gt__`. -/
def objGt (selfId : List Nat) : Option PyValue → CmpResult
  | some (.oid b) => .bool (lexLt b selfId)
  | _ => .notImplemented

/-- `ObjectId.__ge__`. -/
def objGe (selfId : List Nat) : Option PyValue → CmpResult
  | some (.oid b) => .bool (lexLe b selfId)
  | _ => .notImplemented

/-- The 24-bit hash as the claim words it: process the bytes one at a time,
XOR-ing the byte into the state and multiplying by the prime modulo 2^32,
starting from the offset basis; then XOR-fold the top 8 bits into the low
24 bits. -/
def fnvSpecAux (h : Nat) : List Nat → Nat
  | [] => h
  | b :: bs => fnvSpecAux (((h ^^^ b) * 16777619) % 2 ^ 32) bs

/-- 24-bit FNV-1a as described by the spec. -/
def fnv24Spec (data : List Nat) : Nat :=
  (fnvSpecAux 2166136261 data >>> 24) ^^^ (fnvSpecAux 2166136261 data &&& 0xFFFFFF)

/-- Whether an attempted construction succeeded (`is_valid`'s `try` body
reaching `return True`). -/
def exceptOk : Except PyErr (List Nat) → Bool
  | .ok _ => true
  | .error _ => false

/-! ### Basic facts about the byte encodings -/

theorem packBe_length : ∀ (w n : Nat), (packBe w n).length = w
  | 0, _ => rfl
  | w + 1, n => by simp [packBe, packBe_length w]

theorem packLe_length : ∀ (w n : Nat), (packLe w n).length = w
  | 0, _ => rfl
  | w + 1, n => by simp [packLe, packLe_length w]

theorem machineBytesOf_length (hostname : List Nat) :
    (machineBytesOf hostname).length = 3 := by
  simp [machineBytesOf, packLe_length]

theorem packBeI32_eq {t : Int} {bs : List Nat} (h : packBeI32 t = some bs) :
    bs = packBe 4 ((t % 2 ^ 32).toNat) ∧ -(2 ^ 31) ≤ t ∧ t < 2 ^ 31 := by
  unfold packBeI32 at h
  split at h
  · exact ⟨(Option.some.inj h).symm, by omega, by omega⟩
  · cases h

theorem packBeU16_mod (p : Nat) :
    packBeU16 (p % 0xFFFF) = some (packBe 2 (p % 0xFFFF)) := by
  unfold packBeU16
  rw [if_pos]
  omega

/-- Unfolding `generate` when it succeeds. -/
theorem generate_eq {t : Int} {hostname : List Nat} {pid inc : Nat}
    {r : List Nat × Nat} (h : generate t hostname pid inc = some r) :
    r = (packBe 4 ((t % 2 ^ 32).toNat) ++ machineBytesOf hostname ++
          packBe 2 (pid % 0xFFFF) ++ (packBe 4 inc).drop 1,
         (inc + 1) % 0xFFFFFF) ∧ inc < 2 ^ 31 := by
  unfold generate at h
  cases hts : packBeI32 t with
  | none => rw [hts] at h; cases h
  | some tsB =>
    rw [hts, packBeU16_mod] at h
    cases hinc : packBeI32 (inc : Int) with
    | none => rw [hinc] at h; cases h
    | some incB =>
      rw [hinc] at h
      obtain ⟨hb, _, _⟩ := packBeI32_eq hts
      obtain ⟨hib, _, hilt⟩ := packBeI32_eq hinc
      have hincn : (((inc : Int)) % 2 ^ 32).toNat = inc := by omega
      subst hb
      rw [hib, hincn] at h
      exact ⟨(Option.some.inj h).symm, by omega⟩

theorem drop_append_of_length {xs : List Nat} (ys : List Nat) {n : Nat}
    (h : xs.length = n) : (xs ++ ys).drop n = ys := by
  subst h; exact List.drop_left xs ys

theorem take_append_of_length {xs : List Nat} (ys : List Nat) {n : Nat}
    (h : xs.length = n) : (xs ++ ys).take n = xs := by
  subst h; exact List.take_left xs ys

theorem fnv1a32_eq_fnvSpecAux : ∀ (data : List Nat) (h : Nat),
    data.foldl (fun h b => ((h ^^^ b) * 16777619) % 2 ^ 32) h = fnvSpecAux h data
  | [], _ => rfl
  | b :: bs, h => by
    simp only [List.foldl_cons, fnvSpecAux]
    exact fnv1a32_eq_fnvSpecAux bs _

/-- Big-endian encodings of the same width compare lexicographically the
way the encoded numbers compare. -/
theorem lexLt_packBe {w a b : Nat} (hab : a < b) (hb : b < 256 ^ w) :
    lexLt (packBe w a) (packBe w b) = true := by
  induction w generalizing a b with
  | zero =>
    norm_num at hb
    omega
  | succ w ih =>
    have hpos : 0 < 256 ^ w := by positivity
    have hda : a / 256 ^ w ≤ b / 256 ^ w := Nat.div_le_div_right (le_of_lt hab)
    have hdb : b / 256 ^ w < 256 := Nat.div_lt_of_lt_mul (by rw [← pow_succ]; exact hb)
    have hda' : a / 256 ^ w < 256 := lt_of_le_of_lt hda hdb
    simp only [packBe]
    rw [Nat.mod_eq_of_lt hda', Nat.mod_eq_of_lt hdb]
    rcases lt_or_eq_of_le hda with hlt | heq
    · simp [lexLt, hlt]
    · have h1 := Nat.div_add_mod a (256 ^ w)
      have h2 := Nat.div_add_mod b (256 ^ w)
      rw [heq] at h1
      have hmod : a % 256 ^ w < b % 256 ^ w := by omega
      have hmb : b % 256 ^ w < 256 ^ w := Nat.mod_lt _ hpos
      rw [heq]
      simp [lexLt, ih hmod hmb]

/-- A strict lexicographic comparison between lists of equal length is
preserved by appending suffixes. -/
theorem lexLt_append {as bs : List Nat} (cs ds : List Nat)
    (hlen : as.length = bs.length) (h : lexLt as bs = true) :
    lexLt (as ++ cs) (bs ++ ds) = true := by
  induction as generalizing bs with
  | nil =>
    cases bs with
    | nil => simp [lexLt] at h
    | cons b bs => simp at hlen
  | cons a as ih =>
    cases bs with
    | nil => simp [lexLt] at h
    | cons b bs =>
      simp only [List.cons_append]
      by_cases hab : a < b
      · simp [lexLt, hab]
      · by_cases heq : a = b
        · simp only [lexLt, if_neg hab, if_pos heq] at h ⊢
          exact ih (by simpa using hlen) h
        · simp [lexLt, hab, heq] at h

theorem foldl_packBe : ∀ (w n acc : Nat), n < 256 ^ w →
    (packBe w n).foldl (fun a b => a * 256 + b) acc = acc * 256 ^ w + n
  | 0, n, acc, h => by
    simp only [packBe, List.foldl_nil, pow_zero]
    omega
  | w + 1, n, acc, h => by
    simp only [packBe, List.foldl_cons]
    have hd : n / 256 ^ w < 256 := Nat.div_lt_of_lt_mul (by rw [← pow_succ]; exact h)
    rw [Nat.mod_eq_of_lt hd,
      foldl_packBe w (n % 256 ^ w) _ (Nat.mod_lt _ (by positivity))]
    have key : 256 ^ w * (n / 256 ^ w) + n % 256 ^ w = n := Nat.div_add_mod n (256 ^ w)
    calc (acc * 256 + n / 256 ^ w) * 256 ^ w + n % 256 ^ w
        = acc * (256 ^ w * 256) + (256 ^ w * (n / 256 ^ w) + n % 256 ^ w) := by ring
      _ = acc * (256 ^ w * 256) + n := by rw [key]
      _ = acc * 256 ^ (w + 1) + n := by rw [pow_succ]

theorem beNat_packBe {w n : Nat} (h : n < 256 ^ w) : beNat (packBe w n) = n := by
  unfold beNat
  rw [foldl_packBe w n 0 h]
  omega

/-- Unfolding `from_datetime` when it succeeds. -/
theorem from_datetime_eq {g : PyDatetime} {oid : List Nat}
    (h : from_datetime g = some oid) :
    oid = packBe 4 ((utcSecs g % 2 ^ 32).toNat) ++ List.replicate 8 0 ∧
      -(2 ^ 31) ≤ utcSecs g ∧ utcSecs g < 2 ^ 31 := by
  unfold from_datetime at h
  cases hts : packBeI32 (utcSecs g) with
  | none => rw [hts] at h; cases h
  | some tsB =>
    rw [hts] at h
    obtain ⟨hb, h1, h2⟩ := packBeI32_eq hts
    subst hb
    exact ⟨(Option.some.inj h).symm, h1, h2⟩

end Bson

/-- C3: `_fnv_1a_24` is the pure 24-bit FNV-1a hash: it agrees with the
byte-at-a-time FNV-1a-then-XOR-fold description on every byte sequence, and
on the empty input it returns the XOR-fold of the untouched offset basis
2166136261. -/
theorem Bson.fnv_1a_24_correct :
    (∀ data : List Nat, Bson.fnv_1a_24 data = Bson.fnv24Spec data) ∧
    Bson.fnv_1a_24 [] = (2166136261 >>> 24) ^^^ (2166136261 &&& 0xFFFFFF) := by
  constructor
  · intro data
    unfold Bson.fnv_1a_24 Bson.fnv24Spec Bson.fnv1a32
    rw [Bson.fnv1a32_eq_fnvSpecAux]
  · rfl

/-- C1, counterexample: generating with process id 65535 stores the two
bytes `[0, 0]` at offsets [7:9], not the big-endian encoding `[255, 255]`
of `65535 % 65536`, because the source reduces the pid modulo `0xFFFF`. -/
theorem Bson.generate_pid_counterexample :
    (Bson.generate 0 [] 65535 0).map (fun r => (r.1.drop 7).take 2) ≠
      some (Bson.packBe 2 (65535 % 65536)) := by decide

/-- C1, amended: in every successful generation, bytes [7:9] of the
identifier are the big-endian 16-bit encoding of the process id modulo
65535 (`0xFFFF`), not modulo 65536. -/
theorem Bson.generate_pid_bytes (t : Int) (hostname : List Nat) (pid inc : Nat)
    (r : List Nat × Nat) (h : Bson.generate t hostname pid inc = some r) :
    (r.1.drop 7).take 2 = Bson.packBe 2 (pid % 65535) := by
  obtain ⟨hr, -⟩ := Bson.generate_eq h
  subst hr
  dsimp only
  rw [List.append_assoc]
  rw [Bson.drop_append_of_length _
    (by simp [Bson.packBe_length, Bson.machineBytesOf_length])]
  rw [Bson.take_append_of_length _ (Bson.packBe_length 2 _)]

theorem Bson.generate_pid_bytes_witness :
    ((([0, 0, 0, 0, 68, 157, 28, 0, 5, 0, 0, 7] : List Nat),
        (8 : Nat)).1.drop 7).take 2 = Bson.packBe 2 (5 % 65535) :=
  Bson.generate_pid_bytes 0 [] 5 7 ([0, 0, 0, 0, 68, 157, 28, 0, 5, 0, 0, 7], 8)
    (by decide)

/-- C2, counterexample: with the counter at 16777214, generation leaves the
counter at 0, not at `(16777214 + 1) % 2^24 = 16777215`, because the source
increments modulo `0xFFFFFF = 2^24 - 1`. -/
theorem Bson.generate_counter_counterexample :
    (Bson.generate 0 [] 0 16777214).map Prod.snd ≠
      some ((16777214 + 1) % 2 ^ 24) := by decide

/-- C2, amended: in every successful generation from a counter value
`inc < 2^24`, bytes [9:12] of the identifier are the big-endian 3-byte
encoding of `inc` (the low 3 bytes of its 32-bit encoding), and the counter
afterwards holds `(inc + 1) mod (2^24 - 1)`; the counter wraps with period
`2^24 - 1`, not `2^24`. -/
theorem Bson.generate_counter_step (t : Int) (hostname : List Nat)
    (pid inc : Nat) (r : List Nat × Nat) (hinc : inc < 2 ^ 24)
    (h : Bson.generate t hostname pid inc = some r) :
    r.1.drop 9 = Bson.packBe 3 inc ∧ r.2 = (inc + 1) % (2 ^ 24 - 1) := by
  obtain ⟨hr, -⟩ := Bson.generate_eq h
  subst hr
  dsimp only
  constructor
  · rw [Bson.drop_append_of_length _
      (by simp [Bson.packBe_length, Bson.machineBytesOf_length])]
    have hup : Bson.packBe 4 inc =
        (inc / 256 ^ 3 % 256) :: Bson.packBe 3 (inc % 256 ^ 3) := rfl
    rw [hup, List.drop_one, List.tail_cons]
    congr 1
    omega
  · norm_num

theorem Bson.generate_counter_step_witness :
    (([0, 0, 0, 0, 68, 157, 28, 0, 0, 0, 0, 7] : List Nat),
        (8 : Nat)).1.drop 9 = Bson.packBe 3 7 ∧
      ((([0, 0, 0, 0, 68, 157, 28, 0, 0, 0, 0, 7] : List Nat),
        (8 : Nat))).2 = (7 + 1) % (2 ^ 24 - 1) :=
  Bson.generate_counter_step 0 [] 0 7
    ([0, 0, 0, 0, 68, 157, 28, 0, 0, 0, 0, 7], 8) (by decide) (by decide)

/-- C5: whenever `from_datetime` succeeds, the 12-byte identifier starts
with the big-endian signed 32-bit encoding of the timestamp's UTC Unix
seconds (naive timestamps read as UTC, aware ones normalized by subtracting
their offset) and ends with 8 zero bytes. -/
theorem Bson.from_datetime_layout (g : Bson.PyDatetime) (oid : List Nat)
    (h : Bson.from_datetime g = some oid) :
    oid.take 4 = Bson.packBe 4 ((Bson.utcSecs g % 2 ^ 32).toNat) ∧
      oid.drop 4 = List.replicate 8 0 := by
  obtain ⟨e, -, -⟩ := Bson.from_datetime_eq h
  subst e
  exact ⟨Bson.take_append_of_length _ (Bson.packBe_length 4 _),
    Bson.drop_append_of_length _ (Bson.packBe_length 4 _)⟩

theorem Bson.from_datetime_layout_witness :
    ([0, 0, 0, 3, 0, 0, 0, 0, 0, 0, 0, 0] : List Nat).take 4 =
        Bson.packBe 4 ((Bson.utcSecs ⟨5, 0, some 2⟩ % 2 ^ 32).toNat) ∧
      ([0, 0, 0, 3, 0, 0, 0, 0, 0, 0, 0, 0] : List Nat).drop 4 =
        List.replicate 8 0 :=
  Bson.from_datetime_layout ⟨5, 0, some 2⟩ [0, 0, 0, 3, 0, 0, 0, 0, 0, 0, 0, 0]
    (by decide)

/-- C6, counterexample: the timestamp one second before the epoch is
smaller than the epoch, yet its query-only identifier (bytes
`ff ff ff ff 00 …`, the two's-complement encoding of -1) is NOT
lexicographically below the epoch's identifier (all zero bytes): the
signed encoding breaks ordering across the sign boundary. -/
theorem Bson.from_datetime_order_counterexample :
    Bson.utcSecs ⟨-1, 0, none⟩ < Bson.utcSecs ⟨0, 0, none⟩ ∧
      Bson.from_datetime ⟨-1, 0, none⟩ =
        some ([255, 255, 255, 255] ++ List.replicate 8 0) ∧
      Bson.from_datetime ⟨0, 0, none⟩ = some (List.replicate 12 0) ∧
      Bson.lexLt ([255, 255, 255, 255] ++ List.replicate 8 0)
        (List.replicate 12 0) = false := by decide

/-- C6, amended: for two timestamps whose UTC Unix whole seconds satisfy
`0 ≤ s1 < s2`, the query-only identifiers (when construction succeeds)
compare strictly in the same order under the byte-wise lexicographic
ordering; for negative (pre-epoch) seconds the signed encoding reverses
the order, so nonnegativity is required. -/
theorem Bson.from_datetime_mono (g1 g2 : Bson.PyDatetime) (o1 o2 : List Nat)
    (h1 : Bson.from_datetime g1 = some o1)
    (h2 : Bson.from_datetime g2 = some o2)
    (hpos : 0 ≤ Bson.utcSecs g1) (hlt : Bson.utcSecs g1 < Bson.utcSecs g2) :
    Bson.lexLt o1 o2 = true := by
  obtain ⟨e1, l1, u1⟩ := Bson.from_datetime_eq h1
  obtain ⟨e2, l2, u2⟩ := Bson.from_datetime_eq h2
  subst e1
  subst e2
  apply Bson.lexLt_append _ _ (by simp [Bson.packBe_length])
  apply Bson.lexLt_packBe
  · omega
  · have h4 : (256 : Nat) ^ 4 = 2 ^ 32 := by norm_num
    rw [h4]
    omega

theorem Bson.from_datetime_mono_witness :
    Bson.lexLt [0, 0, 0, 3, 0, 0, 0, 0, 0, 0, 0, 0]
      [0, 0, 0, 7, 0, 0, 0, 0, 0, 0, 0, 0] = true :=
  Bson.from_datetime_mono ⟨3, 0, none⟩ ⟨7, 0, none⟩
    [0, 0, 0, 3, 0, 0, 0, 0, 0, 0, 0, 0] [0, 0, 0, 7, 0, 0, 0, 0, 0, 0, 0, 0]
    (by decide) (by decide) (by decide) (by decide)

theorem Bson.unpackBeI32_eq (bs : List Nat) :
    Bson.unpackBeI32 bs =
      if Bson.beNat (bs.take 4) < 2 ^ 31 then (Bson.beNat (bs.take 4) : Int)
      else (Bson.beNat (bs.take 4) : Int) - 2 ^ 32 := rfl

/-- C7: extracting `generation_time` from an identifier built by
`from_datetime` returns the input timestamp truncated to whole seconds as a
UTC-aware datetime (microseconds zeroed, offset zero, seconds equal to the
input's UTC Unix seconds); the extraction is a pure read of the first 4
bytes as a signed big-endian 32-bit integer. -/
theorem Bson.generation_time_from_datetime (g : Bson.PyDatetime)
    (oid : List Nat) (h : Bson.from_datetime g = some oid) :
    Bson.generation_time oid = ⟨Bson.utcSecs g, 0, some 0⟩ := by
  obtain ⟨e, hlo, hhi⟩ := Bson.from_datetime_eq h
  subst e
  unfold Bson.generation_time
  simp only [Bson.PyDatetime.mk.injEq, and_true]
  rw [Bson.unpackBeI32_eq,
    Bson.take_append_of_length _ (Bson.packBe_length 4 _),
    Bson.beNat_packBe (by norm_num; omega)]
  split
  · omega
  · omega

theorem Bson.generation_time_from_datetime_witness :
    Bson.generation_time [0, 0, 0, 3, 0, 0, 0, 0, 0, 0, 0, 0] =
      ⟨Bson.utcSecs ⟨5, 250, some 2⟩, 0, some 0⟩ :=
  Bson.generation_time_from_datetime ⟨5, 250, some 2⟩
    [0, 0, 0, 3, 0, 0, 0, 0, 0, 0, 0, 0] (by decide)

theorem Bson.toHex_nil : Bson.toHex [] = [] := rfl

theorem Bson.toHex_cons (b : Nat) (bs : List Nat) :
    Bson.toHex (b :: bs) =
      Bson.toHexChar (b / 16) :: Bson.toHexChar (b % 16) :: Bson.toHex bs := rfl

theorem Bson.toHex_length : ∀ bs : List Nat, (Bson.toHex bs).length = 2 * bs.length
  | [] => rfl
  | b :: bs => by
    rw [Bson.toHex_cons]
    simp [Bson.toHex_length bs]
    ring

theorem Bson.hexVal_toHexChar : ∀ n, n < 16 →
    Bson.hexDigitVal (Bson.toHexChar n) = some n := by decide

/-- Decoding inverts encoding on genuine bytes. -/
theorem Bson.bytesFromHex_toHex : ∀ bs : List Nat, (∀ x ∈ bs, x < 256) →
    Bson.bytesFromHex (Bson.toHex bs) = some bs
  | [], _ => rfl
  | b :: bs, h => by
    have hb : b < 256 := h b (List.mem_cons_self b bs)
    have htail := Bson.bytesFromHex_toHex bs fun x hx => h x (List.mem_cons_of_mem b hx)
    rw [Bson.toHex_cons]
    unfold Bson.bytesFromHex
    rw [Bson.hexVal_toHexChar (b / 16) (by omega),
      Bson.hexVal_toHexChar (b % 16) (by omega), htail]
    dsimp only
    have : 16 * (b / 16) + b % 16 = b := by omega
    rw [this]

theorem Bson.bytesFromHex_length : ∀ {s : List Char} {bs : List Nat},
    Bson.bytesFromHex s = some bs → s.length = 2 * bs.length
  | [], bs, h => by
    simp only [Bson.bytesFromHex] at h
    simp [← Option.some.inj h]
  | [c], bs, h => by simp only [Bson.bytesFromHex] at h; simp at h
  | c1 :: c2 :: rest, bs, h => by
    simp only [Bson.bytesFromHex] at h
    cases h1 : Bson.hexDigitVal c1 with
    | none => rw [h1] at h; cases h
    | some hd =>
      cases h2 : Bson.hexDigitVal c2 with
      | none => rw [h1, h2] at h; cases h
      | some ld =>
        cases h3 : Bson.bytesFromHex rest with
        | none => rw [h1, h2, h3] at h; cases h
        | some tl =>
          rw [h1, h2, h3] at h
          have := Bson.bytesFromHex_length h3
          rw [← Option.some.inj h]
          simp [this]
          ring

/-- A non-hex character anywhere makes decoding fail. -/
theorem Bson.bytesFromHex_none : ∀ (s : List Char) (c : Char), c ∈ s →
    Bson.hexDigitVal c = none → Bson.bytesFromHex s = none
  | [], c, hc, _ => by simp at hc
  | [c1], _, _, _ => rfl
  | c1 :: c2 :: rest, c, hc, hval => by
    unfold Bson.bytesFromHex
    rcases List.mem_cons.mp hc with h1 | hc2
    · subst h1; rw [hval]
    · rcases List.mem_cons.mp hc2 with h2 | hrest
      · subst h2
        rw [hval]
        cases Bson.hexDigitVal c1 <;> rfl
      · rw [Bson.bytesFromHex_none rest c hrest hval]
        cases Bson.hexDigitVal c1 <;> cases Bson.hexDigitVal c2 <;> rfl
/-- C4: hex round-trip — for every 12-byte identifier, constructing from its
lowercase hex rendering succeeds and returns the same 12 raw bytes, and the
rendering is 24 characters long (two hex digits per byte). -/
theorem Bson.hex_roundtrip (oid : List Nat) (h12 : oid.length = 12)
    (hbytes : ∀ b ∈ oid, b < 256) :
    Bson.construct (.str (Bson.toHex oid)) = .ok oid ∧
      (Bson.toHex oid).length = 24 := by
  have hlen : (Bson.toHex oid).length = 24 := by rw [Bson.toHex_length, h12]
  refine ⟨?_, hlen⟩
  simp only [Bson.construct]
  rw [if_pos hlen, Bson.bytesFromHex_toHex oid hbytes]

theorem Bson.hex_roundtrip_witness :
    Bson.construct
        (.str (Bson.toHex [102, 111, 111, 45, 98, 97, 114, 45, 113, 117, 117, 120])) =
        .ok [102, 111, 111, 45, 98, 97, 114, 45, 113, 117, 117, 120] ∧
      (Bson.toHex [102, 111, 111, 45, 98, 97, 114, 45, 113, 117, 117, 120]).length = 24 :=
  Bson.hex_roundtrip [102, 111, 111, 45, 98, 97, 114, 45, 113, 117, 117, 120]
    (by decide) (by decide)

theorem Bson.is_valid_some (v : Bson.PyValue) :
    Bson.is_valid (some v) = (Bson.isTruthy v && Bson.exceptOk (Bson.construct v)) := by
  simp only [Bson.is_valid]
  cases htv : Bson.isTruthy v with
  | false => simp
  | true =>
    simp only [Bool.not_true, Bool.false_eq_true, if_false, Bool.true_and]
    cases hc : Bson.construct v with
    | ok b => rfl
    | error e => cases e <;> rfl

/-- C8: `is_valid` returns true exactly when the candidate is truthy and
construction from it succeeds; it is false on `None`, the empty string,
23- and 25-character strings, 24-character strings containing a non-hex
character, every integer, and 11- and 13-byte sequences; it is true on every
12-byte sequence, on every `ObjectId` instance (such as a freshly generated
one), and on the hex rendering of any 12-byte identifier. -/
theorem Bson.is_valid_correct :
    (∀ v : Bson.PyValue, Bson.is_valid (some v) =
        (Bson.isTruthy v && Bson.exceptOk (Bson.construct v))) ∧
    Bson.is_valid none = false ∧
    Bson.is_valid (some (.str [])) = false ∧
    (∀ s : List Char, s.length = 23 → Bson.is_valid (some (.str s)) = false) ∧
    (∀ s : List Char, s.length = 25 → Bson.is_valid (some (.str s)) = false) ∧
    (∀ (s : List Char) (c : Char), s.length = 24 → c ∈ s →
        Bson.hexDigitVal c = none → Bson.is_valid (some (.str s)) = false) ∧
    (∀ n : Int, Bson.is_valid (some (.int n)) = false) ∧
    (∀ b : List Nat, b.length = 11 → Bson.is_valid (some (.bytes b)) = false) ∧
    (∀ b : List Nat, b.length = 13 → Bson.is_valid (some (.bytes b)) = false) ∧
    (∀ b : List Nat, b.length = 12 → Bson.is_valid (some (.bytes b)) = true) ∧
    (∀ b : List Nat, Bson.is_valid (some (.oid b)) = true) ∧
    (∀ oid : List Nat, oid.length = 12 → (∀ x ∈ oid, x < 256) →
        Bson.is_valid (some (.str (Bson.toHex oid))) = true) := by
  refine ⟨Bson.is_valid_some, rfl, rfl, ?_, ?_, ?_, ?_, ?_, ?_, ?_, ?_, ?_⟩
  · intro s hs
    rw [Bson.is_valid_some]
    have hc : Bson.construct (.str s) = .error .invalidId := by
      simp only [Bson.construct]
      rw [if_neg (by omega)]
    rw [hc]
    simp [Bson.exceptOk]
  · intro s hs
    rw [Bson.is_valid_some]
    have hc : Bson.construct (.str s) = .error .invalidId := by
      simp only [Bson.construct]
      rw [if_neg (by omega)]
    rw [hc]
    simp [Bson.exceptOk]
  · intro s c hs hmem hval
    rw [Bson.is_valid_some]
    have hc : Bson.construct (.str s) = .error .invalidId := by
      simp only [Bson.construct]
      rw [if_pos hs, Bson.bytesFromHex_none s c hmem hval]
    rw [hc]
    simp [Bson.exceptOk]
  · intro n
    rw [Bson.is_valid_some]
    simp [Bson.construct, Bson.exceptOk]
  · intro b hb
    rw [Bson.is_valid_some]
    have hc : Bson.construct (.bytes b) = .error .typeError := by
      simp only [Bson.construct]
      rw [if_neg (by omega)]
    rw [hc]
    simp [Bson.exceptOk]
  · intro b hb
    rw [Bson.is_valid_some]
    have hc : Bson.construct (.bytes b) = .error .typeError := by
      simp only [Bson.construct]
      rw [if_neg (by omega)]
    rw [hc]
    simp [Bson.exceptOk]
  · intro b hb
    cases b with
    | nil => simp at hb
    | cons x xs =>
      rw [Bson.is_valid_some]
      simp only [Bson.construct]
      rw [if_pos hb]
      rfl
  · intro b
    rfl
  · intro oid h12 hbytes
    rw [Bson.is_valid_some]
    have hlen : (Bson.toHex oid).length = 24 := by rw [Bson.toHex_length, h12]
    have hc : Bson.construct (.str (Bson.toHex oid)) = .ok oid := by
      simp only [Bson.construct]
      rw [if_pos hlen, Bson.bytesFromHex_toHex oid hbytes]
    rw [hc]
    have hne : Bson.toHex oid ≠ [] := by
      intro h
      rw [h] at hlen
      simp at hlen
    simp [Bson.isTruthy, List.isEmpty_iff, hne, Bson.exceptOk]

theorem Bson.is_valid_correct_witness :
    Bson.is_valid (some (.bytes [1, 2, 3, 4, 5, 6, 7, 8, 9, 10, 11, 12])) = true :=
  Bson.is_valid_correct.2.2.2.2.2.2.2.2.2.1 [1, 2, 3, 4, 5, 6, 7, 8, 9, 10, 11, 12]
    (by decide)
/-- C9: every successful construction path stores exactly 12 bytes — fresh
generation, 12 raw bytes, a 24-character hex string, copying an existing
(12-byte) identifier, and the query-only timestamp constructor. -/
theorem Bson.length_invariant :
    (∀ (t : Int) (hostname : List Nat) (pid inc : Nat) (r : List Nat × Nat),
        Bson.generate t hostname pid inc = some r → r.1.length = 12) ∧
    (∀ b oid : List Nat, Bson.construct (.bytes b) = .ok oid → oid.length = 12) ∧
    (∀ (s : List Char) (oid : List Nat),
        Bson.construct (.str s) = .ok oid → oid.length = 12) ∧
    (∀ b oid : List Nat, b.length = 12 →
        Bson.construct (.oid b) = .ok oid → oid.length = 12) ∧
    (∀ (g : Bson.PyDatetime) (oid : List Nat),
        Bson.from_datetime g = some oid → oid.length = 12) := by
  refine ⟨?_, ?_, ?_, ?_, ?_⟩
  · intro t hostname pid inc r h
    obtain ⟨hr, -⟩ := Bson.generate_eq h
    subst hr
    simp [Bson.packBe_length, Bson.machineBytesOf_length]
  · intro b oid h
    simp only [Bson.construct] at h
    by_cases hb : b.length = 12
    · rw [if_pos hb] at h
      simp only [Except.ok.injEq] at h
      subst h
      exact hb
    · rw [if_neg hb] at h
      simp at h
  · intro s oid h
    simp only [Bson.construct] at h
    by_cases hs : s.length = 24
    · rw [if_pos hs] at h
      cases hd : Bson.bytesFromHex s with
      | none => rw [hd] at h; simp at h
      | some b =>
        rw [hd] at h
        simp only [Except.ok.injEq] at h
        subst h
        have := Bson.bytesFromHex_length hd
        omega
    · rw [if_neg hs] at h
      simp at h
  · intro b oid hb h
    simp only [Bson.construct, Except.ok.injEq] at h
    subst h
    exact hb
  · intro g oid h
    obtain ⟨e, -, -⟩ := Bson.from_datetime_eq h
    subst e
    simp [Bson.packBe_length]

theorem Bson.length_invariant_witness :
    (([0, 0, 0, 0, 68, 157, 28, 0, 0, 0, 0, 7] : List Nat), (8 : Nat)).1.length = 12 :=
  Bson.length_invariant.1 0 [] 0 7 ([0, 0, 0, 0, 68, 157, 28, 0, 0, 0, 0, 7], 8)
    (by decide)

/-- C10: all six rich comparisons of an identifier against anything that is
not an `ObjectId` instance (including `None`, its own 12 raw bytes, its own
hex rendering, strings, and integers) return `NotImplemented` rather than
comparing content. -/
theorem Bson.cmp_notImplemented :
    (∀ (selfId : List Nat) (v : Option Bson.PyValue), Bson.isOidVal v = false →
        Bson.objEq selfId v = .notImplemented ∧
        Bson.objNe selfId v = .notImplemented ∧
        Bson.objLt selfId v = .notImplemented ∧
        Bson.objLe selfId v = .notImplemented ∧
        Bson.objGt selfId v = .notImplemented ∧
        Bson.objGe selfId v = .notImplemented) ∧
    (∀ selfId : List Nat,
        Bson.objEq selfId (some (.bytes selfId)) = .notImplemented ∧
        Bson.objEq selfId (some (.str (Bson.toHex selfId))) = .notImplemented) := by
  constructor
  · intro selfId v h
    cases v with
    | none => exact ⟨rfl, rfl, rfl, rfl, rfl, rfl⟩
    | some pv =>
      cases pv with
      | str s => exact ⟨rfl, rfl, rfl, rfl, rfl, rfl⟩
      | bytes b => exact ⟨rfl, rfl, rfl, rfl, rfl, rfl⟩
      | int n => exact ⟨rfl, rfl, rfl, rfl, rfl, rfl⟩
      | oid b => simp [Bson.isOidVal] at h
  · intro selfId
    exact ⟨rfl, rfl⟩

theorem Bson.cmp_notImplemented_witness :
    Bson.objEq [1, 2] none = .notImplemented :=
  (Bson.cmp_notImplemented.1 [1, 2] none (by decide)).1
